import Mathlib

/-!
Shallow embedding of the load-balancer core (`load_balancer.py`, `main.py`):
the backend data model, the selection algorithms, the request forwarder's
connection/latency accounting, health probing, and the admin operations.
Network I/O is abstracted by explicit outcome parameters; Python floats used
only as opaque latency/timestamp data are modelled by `ℚ`.
-/

/-- `LoadBalancingAlgorithm` enum (load_balancer.py lines 22-26). -/
inductive LoadBalancingAlgorithm
  | round_robin
  | weighted_round_robin
  | least_connections
  | random
deriving DecidableEq, Repr

/-- The `Server` dataclass (load_balancer.py lines 28-44).  `active_connections`
is an `Int` because a Python int could in principle go negative; the clamp in
`forward_request` is what keeps it non-negative. -/
structure Server where
  name : String
  host : String
  port : Nat
  weight : Nat
  health_check_path : String
  enabled : Bool
  healthy : Bool
  active_connections : Int
  total_requests : Nat
  last_health_check : ℚ
  response_times : List ℚ
deriving DecidableEq, Repr

/-- The mutable state of the `LoadBalancer` class that the claims touch:
the registry, the shared selection cursor and the active algorithm
(load_balancer.py lines 60-69). -/
structure LoadBalancer where
  servers : List Server
  current_index : Nat
  algorithm : LoadBalancingAlgorithm
deriving DecidableEq, Repr

/-- `get_healthy_servers` (load_balancer.py lines 138-140): the eligible set,
filtered in registry order. -/
def get_healthy_servers (lb : LoadBalancer) : List Server :=
  lb.servers.filter (fun s => s.enabled && s.healthy)

/-- The expanded list built by `_weighted_round_robin_selection`
(load_balancer.py lines 172-175): each server repeated `weight` times,
in registry order. -/
def weightedServers (servers : List Server) : List Server :=
  servers.flatMap (fun s => List.replicate s.weight s)

/-- One comparison step of Python's `min(servers, key=lambda s:
s.active_connections)`: keep the current best, replace only on a strictly
smaller key, so the first minimum wins. -/
def connMin (best x : Server) : Server :=
  if x.active_connections < best.active_connections then x else best

/-- `_least_connections_selection` (load_balancer.py lines 181-183):
Python's `min` over a non-empty list is a left fold of `connMin`. -/
def minByConn : List Server → Option Server
  | [] => none
  | s :: rest => some (rest.foldl connMin s)

/-- `select_server` (load_balancer.py lines 142-162).  `rnd` is an oracle for
`random.choice`: the branch picks the element at `rnd % length`, which ranges
over exactly the choices `random.choice` can make.  Returns the selected
server (if any) together with the updated balancer state. -/
def select_server (lb : LoadBalancer) (rnd : Nat) :
    Option Server × LoadBalancer :=
  let healthy := get_healthy_servers lb
  if healthy.length = 0 then
    (none, lb)
  else if healthy.length = 1 then
    (healthy.get? 0, lb)
  else
    match lb.algorithm with
    | .round_robin =>
        (healthy.get? (lb.current_index % healthy.length),
         { lb with current_index := lb.current_index + 1 })
    | .weighted_round_robin =>
        let ws := weightedServers healthy
        (ws.get? (lb.current_index % ws.length),
         { lb with current_index := lb.current_index + 1 })
    | .least_connections =>
        (minByConn healthy, lb)
    | .random =>
        (healthy.get? (rnd % healthy.length), lb)

/-- `n` consecutive uninterleaved calls to `select_server`, threading state. -/
def selectN (lb : LoadBalancer) (rnd : Nat) :
    Nat → List (Option Server) × LoadBalancer
  | 0 => ([], lb)
  | n + 1 =>
      let p := select_server lb rnd
      let q := selectN p.2 rnd n
      (p.1 :: q.1, q.2)

/-- The latency-history update used in both `_check_server_health`
(lines 126-128) and `forward_request` (lines 222-224): append, then
`pop(0)` once if the length exceeds 10. -/
def recordLatency (times : List ℚ) (t : ℚ) : List ℚ :=
  let ts := times ++ [t]
  if ts.length > 10 then ts.tail else ts

/-- One begin/end of a request against a single backend's counter, as the
registry operations of the spec name them. -/
inductive ConnOp
  | beginReq
  | endReq
deriving DecidableEq, Repr

/-- Effect of one operation on the active-connection count:
`beginReq` is the increment at load_balancer.py line 194, `endReq` the
clamped decrement at line 236. -/
def applyConnOp (a : Int) : ConnOp → Int
  | .beginReq => a + 1
  | .endReq => max 0 (a - 1)

/-- Run a sequence of begin/end operations from count `a`. -/
def runConnOps (a : Int) (ops : List ConnOp) : Int :=
  ops.foldl applyConnOp a

/-- Number of `beginReq` operations in a sequence. -/
def countBegin (ops : List ConnOp) : Nat := ops.count .beginReq

/-- Number of `endReq` operations in a sequence. -/
def countEnd (ops : List ConnOp) : Nat := ops.count .endReq

/-- Decidable check that in every prefix of the sequence the number of ends
never exceeds the number of begins, keeping `c` as the running surplus. -/
def noOrphanEnds : Int → List ConnOp → Bool
  | _, [] => true
  | c, .beginReq :: rest => noOrphanEnds (c + 1) rest
  | c, .endReq :: rest => decide (1 ≤ c) && noOrphanEnds (c - 1) rest

/-- Outcome of the proxied network call inside `forward_request`:
`success` is a response from the backend (any status), `failure` a
`requests.RequestException`, `otherError` any other exception, which
propagates out of `forward_request` but still runs the `finally` block. -/
inductive NetOutcome
  | success (status : Nat) (body : String) (elapsed : ℚ)
  | failure (msg : String) (elapsed : ℚ)
  | otherError
deriving DecidableEq, Repr

/-- The mutation `forward_request` performs on the selected server
(load_balancer.py lines 192-236): increment `active_connections` and
`total_requests`; on a successful response append the elapsed time to
`response_times`; in every case the `finally` block decrements
`active_connections` once, clamped at 0. -/
def serverAfterForward (s : Server) (net : NetOutcome) : Server :=
  let s1 := { s with
    active_connections := s.active_connections + 1,
    total_requests := s.total_requests + 1 }
  let s2 := match net with
    | .success _ _ elapsed =>
        { s1 with response_times := recordLatency s1.response_times elapsed }
    | _ => s1
  { s2 with active_connections := max 0 (s2.active_connections - 1) }

/-- The hop-by-hop header names popped by `forward_request`
(load_balancer.py lines 202-205), exactly as the source lists them. -/
def hop_by_hop_headers : List String :=
  ["connection", "keep-alive", "proxy-authenticate",
   "proxy-authorization", "te", "trailers", "transfer-encoding", "upgrade"]

/-- The outbound header construction of `forward_request`
(load_balancer.py lines 199-207): `dict(headers)` followed by
`request_headers.pop(header, None)` for each listed name — an exact-key
removal on the dict, modelled on an association list with distinct keys. -/
def stripHopByHop (headers : List (String × String)) :
    List (String × String) :=
  headers.filter (fun kv => !(hop_by_hop_headers.contains kv.1))

/-- Replace the first occurrence of `s` in the registry by `s'`, modelling
in-place mutation of the selected `Server` object. -/
def replaceFirst : List Server → Server → Server → List Server
  | [], _, _ => []
  | x :: xs, s, s' =>
      if x = s then s' :: xs else x :: replaceFirst xs s s'

/-- `forward_request` (load_balancer.py lines 185-236).  The Python tuple
`(response, status, text)` is modelled as `(hasResponse, status, body)`;
the outer `Option` is `none` exactly when a non-`RequestException`
exception propagates to the caller. -/
def forward_request (lb : LoadBalancer) (rnd : Nat) (path : String)
    (headers : List (String × String)) (net : NetOutcome) :
    Option (Bool × Nat × String) × LoadBalancer :=
  let sel := select_server lb rnd
  match sel.1 with
  | none => (some (false, 503, "No healthy servers available"), sel.2)
  | some s =>
      let _out_headers := stripHopByHop headers
      let s' := serverAfterForward s net
      let lb' := { sel.2 with servers := replaceFirst sel.2.servers s s' }
      match net with
      | .success status body _ => (some (true, status, body), lb')
      | .failure msg _ =>
          (some (false, 502, "Bad Gateway: " ++ msg), lb')
      | .otherError => (none, lb')

/-- Outcome of a health probe in `_check_server_health`: a response with
some status after `elapsed` seconds, or a `requests.RequestException`;
`now` is the wall-clock time written to `last_health_check`. -/
inductive ProbeOutcome
  | response (status : Nat) (elapsed : ℚ) (now : ℚ)
  | exn (now : ℚ)
deriving DecidableEq, Repr

/-- `_check_server_health` (load_balancer.py lines 115-136): a response sets
`healthy := (status == 200)`, updates the timestamp and appends the measured
latency; a `RequestException` sets `healthy := false` and updates the
timestamp only. -/
def check_server_health (s : Server) (o : ProbeOutcome) : Server :=
  match o with
  | .response status elapsed now =>
      { s with
        healthy := status == 200,
        last_health_check := now,
        response_times := recordLatency s.response_times elapsed }
  | .exn now =>
      { s with healthy := false, last_health_check := now }

/-- Parse an algorithm name the way `LoadBalancingAlgorithm(algorithm)` does:
exact match against the four enum values, else a `ValueError` (`none`). -/
def algorithmFromString? (s : String) : Option LoadBalancingAlgorithm :=
  if s = "round_robin" then some .round_robin
  else if s = "weighted_round_robin" then some .weighted_round_robin
  else if s = "least_connections" then some .least_connections
  else if s = "random" then some .random
  else none

/-- `update_algorithm` (load_balancer.py lines 263-270): on a valid name set
the algorithm and reset the cursor; a `ValueError` is caught before either
assignment runs, leaving the state untouched. -/
def update_algorithm (lb : LoadBalancer) (s : String) : LoadBalancer :=
  match algorithmFromString? s with
  | some a => { lb with algorithm := a, current_index := 0 }
  | none => lb

/-- The `change_algorithm` Flask handler (main.py lines 116-119): it calls
`update_algorithm` and unconditionally returns HTTP 200 with the message
`Algorithm changed to <name>`. -/
def change_algorithm (lb : LoadBalancer) (s : String) :
    LoadBalancer × Nat × String :=
  (update_algorithm lb s, 200, "Algorithm changed to " ++ s)

/-! ### Helper lemmas -/

theorem runConnOps_cons (a : Int) (op : ConnOp) (ops : List ConnOp) :
    runConnOps a (op :: ops) = runConnOps (applyConnOp a op) ops := rfl

theorem runConnOps_nonneg (ops : List ConnOp) :
    ∀ a : Int, 0 ≤ a → 0 ≤ runConnOps a ops := by
  induction ops with
  | nil => intro a ha; exact ha
  | cons op rest ih =>
    intro a ha
    rw [runConnOps_cons]
    apply ih
    cases op with
    | beginReq => simp [applyConnOp]; omega
    | endReq => simp [applyConnOp]

theorem runConnOps_balanced (ops : List ConnOp) :
    ∀ a : Int, 0 ≤ a → noOrphanEnds a ops = true →
      runConnOps a ops = a + countBegin ops - countEnd ops := by
  induction ops with
  | nil => intro a _ _; simp [runConnOps, countBegin, countEnd]
  | cons op rest ih =>
    intro a ha hok
    cases op with
    | beginReq =>
      rw [runConnOps_cons]
      have hok' : noOrphanEnds (a + 1) rest = true := hok
      have := ih (a + 1) (by omega) hok'
      simp only [applyConnOp] at this ⊢
      rw [this]
      simp [countBegin, countEnd, List.count_cons]
      omega
    | endReq =>
      rw [runConnOps_cons]
      simp only [noOrphanEnds, Bool.and_eq_true, decide_eq_true_eq] at hok
      obtain ⟨h1, hok'⟩ := hok
      have hmax : applyConnOp a ConnOp.endReq = a - 1 := by
        simp only [applyConnOp]; omega
      rw [hmax]
      have := ih (a - 1) (by omega) hok'
      rw [this]
      simp [countBegin, countEnd, List.count_cons]
      omega

/-! ### C1 -/

/-- C1 (amended): for sequences of begin/end operations in which no prefix
contains more ends than begins, the final active-connection count equals
(#begin − #end) clamped at 0; the count is non-negative after every prefix of
every sequence whatsoever, orphan ends included (the inner quantifier ranges
over arbitrary sequences, independently of the hypothesis); and
`forward_request` performs exactly one increment followed by exactly one
clamped decrement on the selected backend on every exit path. -/
theorem conn_count_balanced (ops : List ConnOp)
    (h : noOrphanEnds 0 ops = true) :
    runConnOps 0 ops = max 0 ((countBegin ops : Int) - countEnd ops)
    ∧ (∀ anyOps pre suf : List ConnOp,
        pre ++ suf = anyOps → 0 ≤ runConnOps 0 pre)
    ∧ ∀ (s : Server) (net : NetOutcome),
        (serverAfterForward s net).active_connections
          = applyConnOp (applyConnOp s.active_connections ConnOp.beginReq)
              ConnOp.endReq := by
  refine ⟨?_, ?_, ?_⟩
  · have heq := runConnOps_balanced ops 0 le_rfl h
    have hnn := runConnOps_nonneg ops 0 le_rfl
    omega
  · intro _ pre _ _
    exact runConnOps_nonneg pre 0 le_rfl
  · intro s net
    cases net <;> rfl

theorem conn_count_balanced_instance :
    noOrphanEnds 0 [ConnOp.beginReq, ConnOp.beginReq, ConnOp.endReq] = true
    ∧ runConnOps 0 [ConnOp.beginReq, ConnOp.beginReq, ConnOp.endReq]
        = max 0 ((countBegin [ConnOp.beginReq, ConnOp.beginReq, ConnOp.endReq] : Int)
            - countEnd [ConnOp.beginReq, ConnOp.beginReq, ConnOp.endReq])
    ∧ 0 ≤ runConnOps 0 [ConnOp.endReq, ConnOp.endReq] :=
  ⟨by decide,
   (conn_count_balanced [ConnOp.beginReq, ConnOp.beginReq, ConnOp.endReq]
      (by decide)).1,
   (conn_count_balanced [ConnOp.beginReq, ConnOp.beginReq, ConnOp.endReq]
      (by decide)).2.1 [ConnOp.endReq, ConnOp.endReq, ConnOp.beginReq]
     [ConnOp.endReq, ConnOp.endReq] [ConnOp.beginReq] rfl⟩

/-- C1 fails as stated for arbitrary sequences: an `endReq` arriving before
any `beginReq` is clamped away, so the sequence [end, begin] leaves the count
at 1 while (#begin − #end) clamped to ≥ 0 is 0. -/
theorem conn_count_unbalanced_cx :
    runConnOps 0 [ConnOp.endReq, ConnOp.beginReq] = 1
    ∧ max 0 ((countBegin [ConnOp.endReq, ConnOp.beginReq] : Int)
        - countEnd [ConnOp.endReq, ConnOp.beginReq]) = 0 := by
  constructor <;> decide

/-! ### Concrete fixtures used by witnesses and counterexamples -/

/-- A healthy, enabled backend template. -/
def mkServer (nm : String) (w : Nat) (ac : Int) : Server :=
  { name := nm, host := "127.0.0.1", port := 8001, weight := w,
    health_check_path := "/health", enabled := true, healthy := true,
    active_connections := ac, total_requests := 0,
    last_health_check := 0, response_times := [] }

def sA : Server := mkServer "A" 3 0

def sB : Server := mkServer "B" 1 0

/-- A balancer with a single eligible backend, round robin. -/
def lbOne : LoadBalancer :=
  { servers := [sA], current_index := 0, algorithm := .round_robin }

/-- A balancer whose only backend is disabled: empty eligible set. -/
def lbDown : LoadBalancer :=
  { servers := [{ sA with enabled := false }], current_index := 0,
    algorithm := .round_robin }

/-- Backends [A, B] with weights [3, 1], weighted round robin, cursor 0. -/
def lbAB : LoadBalancer :=
  { servers := [sA, sB], current_index := 0,
    algorithm := .weighted_round_robin }

/-- Six eligible backends whose active-connection counts tie for the minimum
at registry indices 2 and 5. -/
def lbSix : LoadBalancer :=
  { servers :=
      [mkServer "s0" 1 7, mkServer "s1" 1 5, mkServer "s2" 1 2,
       mkServer "s3" 1 9, mkServer "s4" 1 4, mkServer "s5" 1 2],
    current_index := 0, algorithm := .least_connections }

/-- An empty-registry balancer used to evaluate the admin operations. -/
def lb0 : LoadBalancer :=
  { servers := [], current_index := 7, algorithm := .round_robin }

/-! ### C5 -/

/-- C5: with an empty eligible set, `select_server` returns the explicit
no-backend outcome without touching any state, and `forward_request` returns
status 503 with a diagnostic body, leaving the balancer — hence every
backend's counters — unchanged. -/
theorem empty_eligible_503 (lb : LoadBalancer) (rnd : Nat) (path : String)
    (headers : List (String × String)) (net : NetOutcome)
    (h : get_healthy_servers lb = []) :
    select_server lb rnd = (none, lb)
    ∧ forward_request lb rnd path headers net
        = (some (false, 503, "No healthy servers available"), lb) := by
  have hsel : select_server lb rnd = (none, lb) := by
    simp [select_server, h]
  refine ⟨hsel, ?_⟩
  simp [forward_request, hsel]

theorem empty_eligible_503_instance :
    select_server lbDown 0 = (none, lbDown)
    ∧ forward_request lbDown 0 "/x" [] NetOutcome.otherError
        = (some (false, 503, "No healthy servers available"), lbDown) :=
  empty_eligible_503 lbDown 0 "/x" [] NetOutcome.otherError (by decide)

/-! ### C6 -/

/-- C6: the latency-history update keeps the history at length ≤ 10 (so any
history grown from the empty one stays ≤ 10 at all times), appends
chronologically at the tail while below the cap, and on inserting into a full
history of 10 drops exactly the oldest entry, leaving the previous 9
most-recent values followed by the new one. -/
theorem latency_history_bounded :
    (∀ (l : List ℚ) (t : ℚ), l.length ≤ 10 → (recordLatency l t).length ≤ 10)
    ∧ (∀ vals : List ℚ, (vals.foldl recordLatency []).length ≤ 10)
    ∧ (∀ (l : List ℚ) (t : ℚ), l.length < 10 → recordLatency l t = l ++ [t])
    ∧ (∀ (l : List ℚ) (t : ℚ), l.length = 10 →
        recordLatency l t = l.tail ++ [t]) := by
  have hstep : ∀ (l : List ℚ) (t : ℚ), l.length ≤ 10 →
      (recordLatency l t).length ≤ 10 := by
    intro l t hl
    simp only [recordLatency, List.length_append, List.length_singleton]
    split
    · simp; omega
    · simp; omega
  refine ⟨hstep, ?_, ?_, ?_⟩
  · intro vals
    have : ∀ (l : List ℚ), l.length ≤ 10 →
        (vals.foldl recordLatency l).length ≤ 10 := by
      induction vals with
      | nil => intro l hl; simpa using hl
      | cons v vs ih =>
        intro l hl
        simpa using ih (recordLatency l v) (hstep l v hl)
    exact this [] (by simp)
  · intro l t hl
    simp only [recordLatency, List.length_append, List.length_singleton]
    rw [if_neg (by omega)]
  · intro l t hl
    simp only [recordLatency, List.length_append, List.length_singleton]
    rw [if_pos (by omega)]
    cases l with
    | nil => simp at hl
    | cons x xs => simp

theorem latency_history_bounded_instance :
    ([0, 1, 2, 3, 4, 5, 6, 7, 8, 9] : List ℚ).length = 10
    ∧ recordLatency [0, 1, 2, 3, 4, 5, 6, 7, 8, 9] 10
        = ([0, 1, 2, 3, 4, 5, 6, 7, 8, 9] : List ℚ).tail ++ [10] :=
  ⟨by decide,
   latency_history_bounded.2.2.2 [0, 1, 2, 3, 4, 5, 6, 7, 8, 9] 10 (by decide)⟩

/-! ### C7 -/

/-- C7 (amended): any response outcome (whatever its status) updates the
probe timestamp, appends the measured duration to the latency history, and
marks the backend healthy iff the status is 200; a transport failure updates
the timestamp and marks the backend unhealthy but leaves the latency history
unchanged — no duration or sentinel is recorded. -/
theorem probe_outcome_effects :
    (∀ (s : Server) (status : Nat) (elapsed now : ℚ),
      (check_server_health s (ProbeOutcome.response status elapsed now)).healthy
          = (status == 200)
      ∧ (check_server_health s
          (ProbeOutcome.response status elapsed now)).last_health_check = now
      ∧ (check_server_health s
          (ProbeOutcome.response status elapsed now)).response_times
          = recordLatency s.response_times elapsed)
    ∧ ∀ (s : Server) (now : ℚ),
        (check_server_health s (ProbeOutcome.exn now)).healthy = false
        ∧ (check_server_health s (ProbeOutcome.exn now)).last_health_check = now
        ∧ (check_server_health s (ProbeOutcome.exn now)).response_times
            = s.response_times := by
  exact ⟨fun s status elapsed now => ⟨rfl, rfl, rfl⟩,
         fun s now => ⟨rfl, rfl, rfl⟩⟩

/-- C7 fails as stated: a failed probe (a `requests.RequestException`) does
not append anything — measured duration or sentinel — to the latency history;
on a backend with an empty history it stays empty instead of gaining an
entry. -/
theorem probe_failure_no_latency_cx :
    (check_server_health sA (ProbeOutcome.exn 1)).response_times = []
    ∧ sA.response_times = []
    ∧ ¬ ((check_server_health sA (ProbeOutcome.exn 1)).response_times.length
          = sA.response_times.length + 1) := by
  refine ⟨rfl, rfl, by decide⟩

/-! ### C8 -/

/-- C8 (amended): the outbound request keeps exactly the inbound headers
whose name is not literally one of the eight lowercase hop-by-hop names —
the match is case-sensitive, so a header spelled `Connection` is forwarded
unchanged rather than stripped. -/
theorem hop_by_hop_strip (headers : List (String × String))
    (kv : String × String) :
    (kv ∈ stripHopByHop headers ↔ kv ∈ headers ∧ kv.1 ∉ hop_by_hop_headers)
    ∧ ("Connection", "close") ∈ stripHopByHop [("Connection", "close")] := by
  constructor
  · simp [stripHopByHop, List.mem_filter]
  · decide

/-- C8 fails as stated: the header name match is case-sensitive.
`Connection` lowercases to the listed hop-by-hop name `connection`, yet the
header survives stripping. -/
theorem hop_by_hop_case_cx :
    ("Connection", "close") ∈ stripHopByHop [("Connection", "close")]
    ∧ "connection" ∈ hop_by_hop_headers
    ∧ "Connection" ∉ hop_by_hop_headers := by
  refine ⟨by decide, by decide, by decide⟩

/-! ### C9 -/

/-- C9 evaluated at the failing input: `update_algorithm` with a valid name
does switch the algorithm and reset the cursor, but with an invalid name the
HTTP handler still answers 200 with the success message
`Algorithm changed to bogus` while the balancer state is untouched — there is
no 400-class / InvalidAlgorithm outcome anywhere in the code. -/
theorem change_algorithm_invalid_reports_success :
    algorithmFromString? "bogus" = none
    ∧ change_algorithm lb0 "bogus" = (lb0, 200, "Algorithm changed to bogus")
    ∧ update_algorithm lb0 "least_connections"
        = { lb0 with algorithm := .least_connections, current_index := 0 } := by
  refine ⟨rfl, ?_, rfl⟩
  simp [change_algorithm, update_algorithm, algorithmFromString?]

/-! ### C10 -/

/-- C10: an `update_algorithm` call whose argument is not one of the four
valid identifiers raises `ValueError` before either assignment runs, so the
balancer state — algorithm and selection cursor included — is exactly what it
was before the call. -/
theorem update_algorithm_invalid_noop (lb : LoadBalancer) (s : String)
    (h : algorithmFromString? s = none) :
    update_algorithm lb s = lb := by
  simp [update_algorithm, h]

theorem update_algorithm_invalid_noop_instance :
    algorithmFromString? "fastest" = none
    ∧ update_algorithm lb0 "fastest" = lb0 :=
  ⟨rfl, update_algorithm_invalid_noop lb0 "fastest" rfl⟩

/-! ### C4 -/

theorem connMin_foldl_spec (rest : List Server) :
    ∀ s : Server,
      (∀ t ∈ s :: rest,
        (rest.foldl connMin s).active_connections ≤ t.active_connections)
      ∧ ∃ pre suf,
          s :: rest = pre ++ (rest.foldl connMin s) :: suf
          ∧ ∀ t ∈ pre,
              (rest.foldl connMin s).active_connections
                < t.active_connections := by
  induction rest with
  | nil =>
    intro s
    refine ⟨?_, [], [], rfl, by simp⟩
    intro t ht
    simp only [List.mem_singleton] at ht
    subst ht
    exact le_rfl
  | cons x xs ih =>
    intro s
    by_cases hx : x.active_connections < s.active_connections
    · have hf : (x :: xs).foldl connMin s = xs.foldl connMin x := by
        simp [List.foldl_cons, connMin, if_pos hx]
      obtain ⟨hmin, pre, suf, hsplit, hpre⟩ := ih x
      rw [hf]
      refine ⟨?_, s :: pre, suf, ?_, ?_⟩
      · intro t ht
        rcases List.mem_cons.mp ht with h | h
        · subst h
          exact le_trans (hmin x (by simp)) (le_of_lt hx)
        · exact hmin t h
      · simpa using hsplit
      · intro t ht
        rcases List.mem_cons.mp ht with h | h
        · subst h
          exact lt_of_le_of_lt (hmin x (by simp)) hx
        · exact hpre t h
    · have hf : (x :: xs).foldl connMin s = xs.foldl connMin s := by
        simp [List.foldl_cons, connMin, if_neg hx]
      obtain ⟨hmin, pre, suf, hsplit, hpre⟩ := ih s
      rw [hf]
      have hxle : s.active_connections ≤ x.active_connections := not_lt.mp hx
      refine ⟨?_, ?_⟩
      · intro t ht
        rcases List.mem_cons.mp ht with h | h
        · rw [h]
          exact hmin s (by simp)
        · rcases List.mem_cons.mp h with h' | h'
          · rw [h']
            exact le_trans (hmin s (by simp)) hxle
          · exact hmin t (List.mem_cons_of_mem s h')
      · cases pre with
        | nil =>
          simp only [List.nil_append] at hsplit
          have h1 : s = xs.foldl connMin s := by
            exact (List.cons.injEq _ _ _ _ ▸ hsplit).1
          refine ⟨[], x :: xs, ?_, by simp⟩
          rw [List.nil_append, ← h1]
        | cons p pre' =>
          rw [List.cons_append] at hsplit
          have h1 : s = p := (List.cons.injEq _ _ _ _ ▸ hsplit).1
          have h2 : xs = pre' ++ xs.foldl connMin s :: suf :=
            (List.cons.injEq _ _ _ _ ▸ hsplit).2
          have hrs : (xs.foldl connMin s).active_connections
              < s.active_connections := by
            apply hpre
            rw [← h1] at hsplit ⊢
            simp
          refine ⟨s :: x :: pre', suf, ?_, ?_⟩
          · rw [List.cons_append, List.cons_append, ← h2]
          · intro t ht
            rcases List.mem_cons.mp ht with h | h
            · rw [h]
              exact hrs
            · rcases List.mem_cons.mp h with h' | h'
              · rw [h']
                exact lt_of_lt_of_le hrs hxle
              · exact hpre t (List.mem_cons_of_mem p h')

theorem select_server_least (lb : LoadBalancer) (rnd : Nat)
    (halg : lb.algorithm = LoadBalancingAlgorithm.least_connections)
    (hne : get_healthy_servers lb ≠ []) :
    (select_server lb rnd).1 = minByConn (get_healthy_servers lb) := by
  have h0 : ¬ (get_healthy_servers lb).length = 0 := by
    simpa [List.length_eq_zero] using hne
  by_cases h1 : (get_healthy_servers lb).length = 1
  · obtain ⟨x, hx⟩ := List.length_eq_one.mp h1
    simp [select_server, h0, h1, hx, minByConn]
  · simp [select_server, h0, h1, halg]

/-- C4: under `least_connections`, the selected backend exists, its
active-connection count is ≤ that of every eligible backend, and it is the
first backend in registry order attaining the minimum: every eligible
backend strictly before it has a strictly larger count. -/
theorem least_connections_first_min (lb : LoadBalancer) (rnd : Nat)
    (halg : lb.algorithm = LoadBalancingAlgorithm.least_connections)
    (hne : get_healthy_servers lb ≠ []) :
    ∃ r, (select_server lb rnd).1 = some r
      ∧ (∀ t ∈ get_healthy_servers lb,
          r.active_connections ≤ t.active_connections)
      ∧ ∃ pre suf, get_healthy_servers lb = pre ++ r :: suf
          ∧ ∀ t ∈ pre, r.active_connections < t.active_connections := by
  obtain ⟨s, rest, hel⟩ := List.exists_cons_of_ne_nil hne
  have hsel := select_server_least lb rnd halg hne
  obtain ⟨hmin, pre, suf, hsplit, hpre⟩ := connMin_foldl_spec rest s
  refine ⟨rest.foldl connMin s, ?_, ?_, pre, suf, ?_, hpre⟩
  · rw [hsel, hel]
    rfl
  · rw [hel]
    exact hmin
  · rw [hel]
    exact hsplit

theorem least_connections_first_min_instance :
    ∃ r, (select_server lbSix 0).1 = some r
      ∧ (∀ t ∈ get_healthy_servers lbSix,
          r.active_connections ≤ t.active_connections)
      ∧ ∃ pre suf, get_healthy_servers lbSix = pre ++ r :: suf
          ∧ ∀ t ∈ pre, r.active_connections < t.active_connections :=
  least_connections_first_min lbSix 0 rfl (by decide)

/-! ### C2 -/

theorem selectN_succ (lb : LoadBalancer) (rnd n : Nat) :
    selectN lb rnd (n + 1)
      = ((select_server lb rnd).1
            :: (selectN (select_server lb rnd).2 rnd n).1,
         (selectN (select_server lb rnd).2 rnd n).2) := rfl

theorem range_map_shift {α : Type} (g : Nat → α) (n c : Nat) :
    g c :: (List.range n).map (fun k => g (c + 1 + k))
      = (List.range (n + 1)).map (fun k => g (c + k)) := by
  rw [List.range_succ_eq_map, List.map_cons, List.map_map, Nat.add_zero]
  refine congrArg (g c :: ·) ?_
  apply List.map_congr_left
  intro k _
  simp only [Function.comp_apply]
  congr 1
  omega

theorem select_server_rr_step (lb : LoadBalancer) (rnd : Nat)
    (halg : lb.algorithm = LoadBalancingAlgorithm.round_robin)
    (h2 : 2 ≤ (get_healthy_servers lb).length) :
    select_server lb rnd
      = ((get_healthy_servers lb).get?
            (lb.current_index % (get_healthy_servers lb).length),
         { lb with current_index := lb.current_index + 1 }) := by
  have h0 : ¬ (get_healthy_servers lb).length = 0 := by omega
  have h1 : ¬ (get_healthy_servers lb).length = 1 := by omega
  simp [select_server, h0, h1, halg]

theorem select_server_single (lb : LoadBalancer) (rnd : Nat)
    (h1 : (get_healthy_servers lb).length = 1) :
    select_server lb rnd = ((get_healthy_servers lb).get? 0, lb) := by
  have h0 : ¬ (get_healthy_servers lb).length = 0 := by omega
  simp [select_server, h0, h1]

theorem selectN_rr (rnd : Nat) (n : Nat) :
    ∀ lb : LoadBalancer,
      lb.algorithm = LoadBalancingAlgorithm.round_robin →
      2 ≤ (get_healthy_servers lb).length →
      (selectN lb rnd n).1
          = (List.range n).map (fun k =>
              (get_healthy_servers lb).get?
                ((lb.current_index + k) % (get_healthy_servers lb).length))
      ∧ (selectN lb rnd n).2
          = { lb with current_index := lb.current_index + n } := by
  induction n with
  | zero =>
    intro lb _ _
    exact ⟨rfl, rfl⟩
  | succ n ih =>
    intro lb halg h2
    have hstep := select_server_rr_step lb rnd halg h2
    have hel : get_healthy_servers
        { lb with current_index := lb.current_index + 1 }
        = get_healthy_servers lb := rfl
    obtain ⟨ih1, ih2⟩ :=
      ih { lb with current_index := lb.current_index + 1 } halg
        (by rw [hel]; exact h2)
    rw [selectN_succ, hstep]
    simp only at ih1 ih2 ⊢
    rw [hel] at ih1
    constructor
    · rw [ih1]
      exact range_map_shift
        (fun j => (get_healthy_servers lb).get?
          (j % (get_healthy_servers lb).length)) n lb.current_index
    · rw [ih2]
      congr 1
      omega

/-- C2 (amended): under round robin, a selection over an eligible set of
N ≥ 2 backends returns `eligible[cursor mod N]` and increments the cursor;
with exactly one eligible backend the code short-circuits, returning that
backend without touching the cursor; and in either case N consecutive
uninterleaved selections return the eligible list rotated to start at the
cursor position — a permutation of the eligible set, so each backend is
visited exactly once, in registry order from the cursor. -/
theorem round_robin_rotation (lb : LoadBalancer) (rnd : Nat)
    (halg : lb.algorithm = LoadBalancingAlgorithm.round_robin) :
    (2 ≤ (get_healthy_servers lb).length →
      select_server lb rnd
        = ((get_healthy_servers lb).get?
              (lb.current_index % (get_healthy_servers lb).length),
           { lb with current_index := lb.current_index + 1 }))
    ∧ ((get_healthy_servers lb).length = 1 →
      select_server lb rnd = ((get_healthy_servers lb).get? 0, lb))
    ∧ (1 ≤ (get_healthy_servers lb).length →
      (selectN lb rnd (get_healthy_servers lb).length).1
        = ((get_healthy_servers lb).rotate
            (lb.current_index % (get_healthy_servers lb).length)).map some)
    ∧ ((get_healthy_servers lb).rotate
        (lb.current_index % (get_healthy_servers lb).length)).Perm
        (get_healthy_servers lb) := by
  refine ⟨select_server_rr_step lb rnd halg, select_server_single lb rnd, ?_,
    List.rotate_perm _ _⟩
  intro hpos
  by_cases h1 : (get_healthy_servers lb).length = 1
  · obtain ⟨x, hx⟩ := List.length_eq_one.mp h1
    rw [h1, selectN_succ, select_server_single lb rnd h1]
    simp only [selectN]
    rw [hx]
    simp [Nat.mod_one]
  · have h2 : 2 ≤ (get_healthy_servers lb).length := by omega
    obtain ⟨hsel, _⟩ := selectN_rr rnd (get_healthy_servers lb).length lb halg h2
    rw [hsel]
    apply List.ext_get?
    intro m
    by_cases hm : m < (get_healthy_servers lb).length
    · rw [List.get?_map, List.get?_map, List.get?_range hm,
        List.get?_rotate hm]
      have hidx : (m + lb.current_index % (get_healthy_servers lb).length)
            % (get_healthy_servers lb).length
          = (lb.current_index + m) % (get_healthy_servers lb).length := by
        rw [Nat.add_mod_mod, Nat.add_comm]
      rw [hidx]
      have hlt : (lb.current_index + m) % (get_healthy_servers lb).length
          < (get_healthy_servers lb).length := Nat.mod_lt _ (by omega)
      cases hj : (get_healthy_servers lb).get?
          ((lb.current_index + m) % (get_healthy_servers lb).length) with
      | none =>
        exact absurd (List.get?_eq_none.mp hj) (by omega)
      | some v => simp [← List.get?_eq_getElem?, hj]
    · have hlen1 : ((List.range (get_healthy_servers lb).length).map
          (fun k => (get_healthy_servers lb).get?
            ((lb.current_index + k) % (get_healthy_servers lb).length))).length
          = (get_healthy_servers lb).length := by
        simp
      have hlen2 : (((get_healthy_servers lb).rotate
          (lb.current_index % (get_healthy_servers lb).length)).map
            some).length = (get_healthy_servers lb).length := by
        simp
      rw [List.get?_eq_none.mpr (by omega), List.get?_eq_none.mpr (by omega)]

/-- C2 fails as stated at N = 1: with a single eligible backend the claimed
selection result is returned, but the cursor is left unchanged instead of
being incremented. -/
theorem round_robin_single_no_bump_cx :
    get_healthy_servers lbOne ≠ []
    ∧ lbOne.algorithm = LoadBalancingAlgorithm.round_robin
    ∧ (select_server lbOne 0).1
        = (get_healthy_servers lbOne).get?
            (lbOne.current_index % (get_healthy_servers lbOne).length)
    ∧ (select_server lbOne 0).2.current_index = lbOne.current_index
    ∧ lbOne.current_index ≠ lbOne.current_index + 1 := by
  refine ⟨by decide, rfl, rfl, rfl, by decide⟩

def sC : Server := mkServer "C" 1 0

/-- Three eligible backends under round robin with the cursor at 4. -/
def lbRR3 : LoadBalancer :=
  { servers := [sA, sB, sC], current_index := 4, algorithm := .round_robin }

theorem round_robin_rotation_instance :
    (selectN lbRR3 0 (get_healthy_servers lbRR3).length).1
      = ((get_healthy_servers lbRR3).rotate
          (lbRR3.current_index % (get_healthy_servers lbRR3).length)).map
        some :=
  (round_robin_rotation lbRR3 0 rfl).2.2.1 (by decide)

/-! ### C3 -/

theorem select_server_wrr_step (lb : LoadBalancer) (rnd : Nat)
    (halg : lb.algorithm = LoadBalancingAlgorithm.weighted_round_robin)
    (h2 : 2 ≤ (get_healthy_servers lb).length) :
    select_server lb rnd
      = ((weightedServers (get_healthy_servers lb)).get?
            (lb.current_index
              % (weightedServers (get_healthy_servers lb)).length),
         { lb with current_index := lb.current_index + 1 }) := by
  have h0 : ¬ (get_healthy_servers lb).length = 0 := by omega
  have h1 : ¬ (get_healthy_servers lb).length = 1 := by omega
  simp [select_server, h0, h1, halg]

theorem selectN_AB (n : Nat) :
    ∀ c : Nat,
      (selectN { lbAB with current_index := c } 0 n).1
        = (List.range n).map
            (fun k => [sA, sA, sA, sB].get? ((c + k) % 4))
      ∧ (selectN { lbAB with current_index := c } 0 n).2
        = { lbAB with current_index := c + n } := by
  induction n with
  | zero => intro c; exact ⟨rfl, rfl⟩
  | succ n ih =>
    intro c
    have hel : get_healthy_servers { lbAB with current_index := c }
        = [sA, sB] := rfl
    have h2 : 2 ≤ (get_healthy_servers
        { lbAB with current_index := c }).length := by
      rw [hel]; exact le_rfl
    have hstep : select_server { lbAB with current_index := c } 0
        = ([sA, sA, sA, sB].get? (c % 4),
           { lbAB with current_index := c + 1 }) := by
      rw [select_server_wrr_step _ 0 rfl h2, hel]
      rfl
    obtain ⟨ih1, ih2⟩ := ih (c + 1)
    rw [selectN_succ, hstep]
    simp only at ih1 ih2 ⊢
    refine ⟨?_, ?_⟩
    · rw [ih1]
      exact range_map_shift (fun j => [sA, sA, sA, sB].get? (j % 4)) n c
    · rw [ih2]
      congr 1
      omega

/-- C3: weighted round robin indexes with the shared cursor into the
expanded list in which each eligible backend appears `weight` consecutive
times in registry order (round robin over that conceptual sequence); for the
concrete pool [A, B] with weights [3, 1] and cursor starting at 0, any number
of consecutive uninterleaved selections produces the repeating pattern
A, A, A, B, A, A, A, B, … -/
theorem weighted_round_robin_pattern (lb : LoadBalancer) (rnd : Nat)
    (halg : lb.algorithm = LoadBalancingAlgorithm.weighted_round_robin)
    (h2 : 2 ≤ (get_healthy_servers lb).length) :
    (select_server lb rnd).1
      = (weightedServers (get_healthy_servers lb)).get?
          (lb.current_index
            % (weightedServers (get_healthy_servers lb)).length)
    ∧ ∀ n, (selectN lbAB 0 n).1
        = (List.range n).map
            (fun k => if k % 4 < 3 then some sA else some sB) := by
  constructor
  · rw [select_server_wrr_step lb rnd halg h2]
  · intro n
    have h := (selectN_AB n 0).1
    have hlb : ({ lbAB with current_index := 0 } : LoadBalancer)
        = lbAB := rfl
    rw [hlb] at h
    rw [h]
    apply List.map_congr_left
    intro k _
    simp only [Nat.zero_add]
    have : k % 4 = 0 ∨ k % 4 = 1 ∨ k % 4 = 2 ∨ k % 4 = 3 := by omega
    rcases this with h4 | h4 | h4 | h4 <;> rw [h4] <;> rfl

theorem weighted_round_robin_pattern_instance :
    ((select_server lbAB 0).1
      = (weightedServers (get_healthy_servers lbAB)).get?
          (lbAB.current_index
            % (weightedServers (get_healthy_servers lbAB)).length))
    ∧ ∀ n, (selectN lbAB 0 n).1
        = (List.range n).map
            (fun k => if k % 4 < 3 then some sA else some sB) :=
  weighted_round_robin_pattern lbAB 0 rfl (by decide)
